import Mathlib

/-!
Verification development for the gitorum forum core: a shallow embedding of
the signed-post data model (canonical form, post file format, parsing,
signature verification) and of the thread/category assembly pipeline, with
theorems settling the behavioural claims of the specification.

Modelling conventions.

* Go strings are modelled as Lean `String`s and all byte-level operations
  are implemented over the underlying character list (`String.data`), so
  that every definition is executable and kernel-reducible.  Go compares
  strings byte-wise; on valid UTF-8 data byte order coincides with code
  point order, which is the order implemented here.
* External library effects (the system clock, Ed25519 signing and
  verification, file I/O) are passed in as explicit parameters: the sign
  and verify primitives become function parameters, a key store becomes a
  partial map from username to file content, and a directory becomes the
  list of its entries in the name-sorted order that `os.ReadDir`
  guarantees.
* `fmt.Fprintf`'s `%q` verb and the TOML decoder are modelled on the
  grammar the program itself writes and its tests exercise: one
  `key = "basic string"` assignment per line, with the standard
  backslash escapes.  Rendered HTML (`BodyHTML`, produced by an external
  markdown renderer) is omitted from the post record; it is a derived
  display field that no claim mentions.
-/

/-! ### Byte-wise string ordering (model of Go string comparison) -/

/-- Lexicographic "less or equal" on character lists, mirroring Go's
byte-wise string comparison (on valid UTF-8, byte order equals code-point
order). -/
def charsLe : List Char → List Char → Bool
  | [], _ => true
  | _ :: _, [] => false
  | a :: as, b :: bs =>
    if a < b then true
    else if b < a then false
    else charsLe as bs

/-- Byte-wise string comparison used by `sort.Strings` and for TOML keys. -/
def strLe (a b : String) : Bool := charsLe a.data b.data

/-- The propositional form of `strLe`, used by the specification-level sort. -/
def strLeProp (a b : String) : Prop := strLe a b = true

instance : DecidableRel strLeProp := fun a b => inferInstanceAs (Decidable (strLe a b = true))

/-- Ordered insertion of a string into a list, the building block of the
executable model of `sort.Strings`. -/
def insertStr (x : String) : List String → List String
  | [] => [x]
  | y :: ys => if strLe x y then x :: y :: ys else y :: insertStr x ys

/-- Model of Go's `sort.Strings`.  Go's slice sort is not guaranteed stable,
but equal strings are indistinguishable values, so its output is the unique
sorted permutation of the input, which any correct sort computes; this
executable model computes it by ordered insertion. -/
def sortStrings (l : List String) : List String := l.foldr insertStr []

/-! ### Canonical form (crypto.CanonicalForm) -/

/-- Model of `crypto.CanonicalForm`.  A Go map determines a set of keys and
a valuation; iterating it yields the keys in an arbitrary order, modelled
here by the `keys` list.  The function collects every key other than
`"signature"`, sorts them byte-wise ascending, and emits one `key=value`
line per key followed by a blank line and the raw body. -/
def CanonicalForm (keys : List String) (val : String → String) (body : String) : String :=
  let ks := sortStrings (keys.filter (fun k => k ≠ "signature"))
  String.join (ks.map (fun k => k ++ "=" ++ val k ++ "\n")) ++ "\n" ++ body

/-- Reference serialization, written from the specification's words: all
front-matter fields except `signature` itself, sorted lexicographically by
field name as `key=value` newline-terminated lines, followed by one blank
line and the raw body bytes, verbatim.  It sorts with the Mathlib
library sort over the propositional order rather than the executable
implementation model. -/
def canonicalFormSpec (keys : List String) (val : String → String) (body : String) : String :=
  let ks := List.insertionSort strLeProp (keys.filter (fun k => k ≠ "signature"))
  String.join (ks.map (fun k => k ++ "=" ++ val k ++ "\n")) ++ "\n" ++ body

/-! ### Character-level utilities (models of Go strings helpers) -/

/-- Auxiliary splitter: `splitChAux cs acc` mirrors `strings.Split(s, "\n")`,
with `acc` holding the (reversed) characters of the current line. -/
def splitChAux : List Char → List Char → List (List Char)
  | [], acc => [acc.reverse]
  | c :: cs, acc =>
    if c = '\n' then acc.reverse :: splitChAux cs [] else splitChAux cs (c :: acc)

/-- Model of Go's `strings.Split(s, "\n")`: always returns at least one
element. -/
def splitLines (s : String) : List String := (splitChAux s.data []).map String.mk

/-- Model of Go's `strings.Join(lines, "\n")`. -/
def joinLines : List String → String
  | [] => ""
  | [l] => l
  | l :: ls => l ++ "\n" ++ joinLines ls

/-- Whitespace test for `strings.TrimSpace` (ASCII whitespace; the program
never writes other Unicode space characters). -/
def isSpaceCh (c : Char) : Bool := c = ' ' ∨ c = '\t' ∨ c = '\n' ∨ c = '\r'

/-- Model of Go's `strings.TrimSpace`. -/
def trimSpace (s : String) : String :=
  String.mk (((s.data.dropWhile isSpaceCh).reverse.dropWhile isSpaceCh).reverse)

/-- Model of `strings.TrimSuffix(s, "\n")`: removes one trailing newline if
present, otherwise returns the string unchanged. -/
def trimSuffixNl (s : String) : String :=
  if s.data.getLast? = some '\n' then String.mk s.data.dropLast else s

/-- Model of `strings.HasSuffix`. -/
def strHasSuffix (s suf : String) : Bool := suf.data.isSuffixOf s.data

/-- Model of `strings.TrimSuffix(s, suf)` for a general suffix. -/
def trimSuffixStr (s suf : String) : String :=
  if strHasSuffix s suf then String.mk (s.data.take (s.data.length - suf.data.length)) else s

/-! ### TOML subset and quoting (models of BurntSushi/toml and fmt %q)

The program writes front matter exclusively as `key = "basic string"`
lines and its test suite exercises exactly that grammar (plus blank lines
and malformed inputs).  The decoder below models `toml.Decode` on that
grammar: each nonblank line must be `key = "value"` with the standard
basic-string escapes, unknown keys are ignored (as when decoding into a
struct), and anything else is an error.  `goQuote` models `fmt`'s `%q`
verb on the characters that occur in post fields (printable text plus the
escapes below). -/

/-- Unescape the interior of a TOML basic string.  Returns `none` for a
dangling backslash, an unsupported escape, or an unescaped quote. -/
def tomlUnescape : List Char → Option (List Char)
  | [] => some []
  | '\\' :: e :: rest =>
    match e with
    | 'n' => (tomlUnescape rest).map (fun l => '\n' :: l)
    | 't' => (tomlUnescape rest).map (fun l => '\t' :: l)
    | 'r' => (tomlUnescape rest).map (fun l => '\r' :: l)
    | '"' => (tomlUnescape rest).map (fun l => '"' :: l)
    | '\\' => (tomlUnescape rest).map (fun l => '\\' :: l)
    | _ => none
  | '\\' :: [] => none
  | '"' :: _ => none
  | c :: rest => (tomlUnescape rest).map (fun l => c :: l)

/-- Parse a TOML basic-string value (after trimming): it must be wrapped in
double quotes and its interior must unescape. -/
def tomlParseValue (cs : List Char) : Option String :=
  match cs with
  | '"' :: rest =>
    if rest.getLast? = some '"' then
      (tomlUnescape rest.dropLast).map String.mk
    else none
  | _ => none

/-- Split a line at its first `=`; `none` when the line has no `=`. -/
def splitAtEq : List Char → Option (List Char × List Char)
  | [] => none
  | '=' :: rest => some ([], rest)
  | c :: rest => (splitAtEq rest).map (fun kv => (c :: kv.1, kv.2))

/-- Decode one nonblank TOML line into a key/value pair. -/
def tomlParseLine (line : String) : Option (String × String) :=
  match splitAtEq line.data with
  | none => none
  | some (k, v) =>
    match tomlParseValue ((trimSpace (String.mk v)).data) with
    | none => none
    | some value => some (trimSpace (String.mk k), value)

/-- Decode a list of TOML lines into an association list (line order),
skipping blank lines, failing on any malformed line. -/
def tomlDecodeLines : List String → Except String (List (String × String))
  | [] => Except.ok []
  | line :: rest =>
    if (trimSpace line).data = [] then tomlDecodeLines rest
    else
      match tomlParseLine line with
      | none => Except.error ("malformed TOML line: " ++ line)
      | some kv => (tomlDecodeLines rest).map (fun kvs => kv :: kvs)

/-- Escape one character the way `fmt`'s `%q` verb does, restricted to the
character classes the program stores in post fields. -/
def goQuoteChar (c : Char) : List Char :=
  if c = '"' then ['\\', '"']
  else if c = '\\' then ['\\', '\\']
  else if c = '\n' then ['\\', 'n']
  else if c = '\t' then ['\\', 't']
  else if c = '\r' then ['\\', 'r']
  else [c]

/-- Model of `fmt.Fprintf`'s `%q`: a double-quoted Go string literal. -/
def goQuote (s : String) : String :=
  String.mk ('"' :: (s.data.flatMap goQuoteChar) ++ ['"'])

/-! ### Timestamps (model of time.Time for the RFC3339 subset in use) -/

/-- Calendar timestamp with second precision, the payload of every
timestamp the program reads or writes (`time.RFC3339` in UTC). -/
structure GoTime where
  year : Nat
  month : Nat
  day : Nat
  hour : Nat
  minute : Nat
  second : Nat

deriving DecidableEq

/-- Injective monotone encoding of a timestamp, used for ordering. -/
def GoTime.key (t : GoTime) : Nat :=
  ((((t.year * 13 + t.month) * 32 + t.day) * 24 + t.hour) * 60 + t.minute) * 60 + t.second

/-- Model of `time.Time.Before`. -/
def GoTime.before (a b : GoTime) : Bool := a.key < b.key

/-- The zero `time.Time` value carried by placeholder posts. -/
def GoTime.zero : GoTime := ⟨0, 0, 0, 0, 0, 0⟩

/-- Decimal digit value of a character, `none` for non-digits. -/
def digitVal (c : Char) : Option Nat :=
  if '0' ≤ c ∧ c ≤ '9' then some (c.toNat - 48) else none

/-- Combine digit characters into a number (most significant first). -/
def digitsVal (cs : List Char) : Option Nat :=
  cs.foldl (fun acc c => match acc, digitVal c with
    | some n, some d => some (n * 10 + d)
    | _, _ => none) (some 0)

/-- Model of `time.Parse(time.RFC3339, s)` restricted to the UTC `Z` form
that the program writes (`YYYY-MM-DDTHH:MM:SSZ`); range checks follow
Go's validation (Go additionally checks the exact day count of the month,
and also accepts numeric offsets and fractional seconds, which the
program never produces). -/
def parseRFC3339 (s : String) : Option GoTime :=
  match s.data with
  | [y1, y2, y3, y4, '-', m1, m2, '-', d1, d2, 'T',
     h1, h2, ':', i1, i2, ':', s1, s2, 'Z'] =>
    match digitsVal [y1, y2, y3, y4], digitsVal [m1, m2], digitsVal [d1, d2],
          digitsVal [h1, h2], digitsVal [i1, i2], digitsVal [s1, s2] with
    | some y, some mo, some d, some h, some mi, some sec =>
      if 1 ≤ mo ∧ mo ≤ 12 ∧ 1 ≤ d ∧ d ≤ 31 ∧ h ≤ 23 ∧ mi ≤ 59 ∧ sec ≤ 59 then
        some ⟨y, mo, d, h, mi, sec⟩
      else none
    | _, _, _, _, _, _ => none
  | _ => none

/-- Decimal digits of a number, zero-padded on the left to `width`. -/
def padNat (width n : Nat) : String :=
  let s := toString n
  String.mk (List.replicate (width - s.data.length) '0' ++ s.data)

/-- Model of `time.Time.Format(time.RFC3339)` for a UTC time. -/
def formatRFC3339 (t : GoTime) : String :=
  padNat 4 t.year ++ "-" ++ padNat 2 t.month ++ "-" ++ padNat 2 t.day ++ "T" ++
    padNat 2 t.hour ++ ":" ++ padNat 2 t.minute ++ ":" ++ padNat 2 t.second ++ "Z"

/-- Civil date from days since the Unix epoch (standard days-to-civil
algorithm, the arithmetic `time.Time.UTC` performs). -/
def civilFromDays (z0 : Int) : Nat × Nat × Nat :=
  let z := z0 + 719468
  let era := z.fdiv 146097
  let doe := (z - era * 146097).toNat
  let yoe := (doe - doe / 1460 + doe / 36524 - doe / 146097) / 365
  let doy := doe - (365 * yoe + yoe / 4 - yoe / 100)
  let mp := (5 * doy + 2) / 153
  let d := doy - (153 * mp + 2) / 5 + 1
  let m := if mp < 10 then mp + 3 else mp - 9
  let y := (era * 400 + (yoe : Int) + (if m ≤ 2 then 1 else 0)).toNat
  (y, m, d)

/-- Model of `time.UnixMilli(ms).UTC()`. -/
def unixMilliToGoTime (ms : Int) : GoTime :=
  let s := ms.fdiv 1000
  let days := s.fdiv 86400
  let secOfDay := (s - days * 86400).toNat
  let ymd := civilFromDays days
  ⟨ymd.1, ymd.2.1, ymd.2.2, secOfDay / 3600, secOfDay % 3600 / 60, secOfDay % 60⟩

/-- Model of `time.UnixMilli(ms).UTC().Format(time.RFC3339)`. -/
def formatUnixMilliRFC3339 (ms : Int) : String :=
  formatRFC3339 (unixMilliToGoTime ms)

/-! ### Identity (crypto.Identity) -/

/-- Model of `crypto.Identity`: username plus the base64-encoded public
key.  The private key stays inside the abstract signing function. -/
structure Identity where
  username : String
  publicKey : String

deriving DecidableEq

/-- Model of `Identity.Fingerprint`: the first 8 characters of the base64
public key, or the whole key when shorter. -/
def Identity.fingerprint (id : Identity) : String :=
  if id.publicKey.data.length ≥ 8 then String.mk (id.publicKey.data.take 8)
  else id.publicKey

/-! ### Post model (forum.Post) -/

/-- Model of `forum.SigStatus` (`SigValid` is the Go zero value, `iota` 0). -/
inductive SigStatus where
  | valid
  | invalid
  | missing

deriving DecidableEq

instance : Inhabited SigStatus := ⟨SigStatus.valid⟩

/-- Model of `forum.Post` (see the header for why `BodyHTML` is omitted). -/
structure Post where
  author : String
  pubKey : String
  timestamp : GoTime
  timestampRaw : String
  parent : String
  signature : String
  body : String
  filename : String
  sigStatus : SigStatus
  sigError : String

deriving DecidableEq

/-- The Go zero value of `forum.Post`, the starting point of the
placeholder posts built for unparseable files. -/
def Post.empty : Post :=
  ⟨"", "", GoTime.zero, "", "", "", "", "", SigStatus.valid, ""⟩

/-- Decoded front matter (`forum.rawFrontMatter`): missing keys stay at
their zero value, exactly as with `toml.Decode` into the Go struct. -/
structure RawFrontMatter where
  author : String
  pubkey : String
  timestamp : String
  parent : String
  signature : String

deriving DecidableEq

/-- Fold an association list of decoded TOML assignments into the front
matter struct, ignoring unknown keys. -/
def applyFrontMatter : List (String × String) → RawFrontMatter → RawFrontMatter
  | [], fm => fm
  | (k, v) :: rest, fm =>
    if k = "author" then applyFrontMatter rest { fm with author := v }
    else if k = "pubkey" then applyFrontMatter rest { fm with pubkey := v }
    else if k = "timestamp" then applyFrontMatter rest { fm with timestamp := v }
    else if k = "parent" then applyFrontMatter rest { fm with parent := v }
    else if k = "signature" then applyFrontMatter rest { fm with signature := v }
    else applyFrontMatter rest fm

/-- Model of `forum.parseFrontMatter`: requires an opening `+++` line and a
closing `+++` line, TOML-decodes the lines between them, then takes the
body as everything after the closing fence, stripping one leading blank
line and one trailing newline. -/
def parseFrontMatter (content : String) : Except String (RawFrontMatter × String) :=
  match splitLines content with
  | [] => Except.error "file does not begin with front matter fence '+++'"
  | l0 :: rest =>
    if l0 ≠ "+++" then Except.error "file does not begin with front matter fence '+++'"
    else
      match rest.findIdx? (fun l => l = "+++") with
      | none => Except.error "front matter closing '+++' not found"
      | some closeAt =>
        match tomlDecodeLines (rest.take closeAt) with
        | Except.error e => Except.error ("decode TOML front matter: " ++ e)
        | Except.ok kvs =>
          let fm := applyFrontMatter kvs ⟨"", "", "", "", ""⟩
          let bodyLines0 := rest.drop (closeAt + 1)
          let bodyLines :=
            match bodyLines0 with
            | "" :: tl => tl
            | other => other
          Except.ok (fm, trimSuffixNl (joinLines bodyLines))

/-- Model of `forum.ParsePost`: parse the front matter, then the RFC3339
timestamp; `SigStatus` is left at its zero value (`SigValid`). -/
def ParsePost (filename : String) (content : String) : Except String Post :=
  match parseFrontMatter content with
  | Except.error e => Except.error ("parse " ++ filename ++ ": " ++ e)
  | Except.ok (fm, body) =>
    match parseRFC3339 fm.timestamp with
    | none => Except.error ("parse timestamp in " ++ filename)
    | some ts =>
      Except.ok
        { author := fm.author
          pubKey := fm.pubkey
          timestamp := ts
          timestampRaw := fm.timestamp
          parent := fm.parent
          signature := fm.signature
          body := body
          filename := filename
          sigStatus := SigStatus.valid
          sigError := "" }

/-- Model of `Post.Format`: the exact on-disk representation. -/
def Post.format (p : Post) : String :=
  "+++\n" ++
  "author    = " ++ goQuote p.author ++ "\n" ++
  "pubkey    = " ++ goQuote p.pubKey ++ "\n" ++
  "timestamp = " ++ goQuote p.timestampRaw ++ "\n" ++
  "parent    = " ++ goQuote p.parent ++ "\n" ++
  "signature = " ++ goQuote p.signature ++ "\n" ++
  "+++\n\n" ++
  p.body

/-- Key list of the field map `SignPost` builds (map iteration order is
arbitrary; `CanonicalForm` is iteration-order independent). -/
def signFieldKeys : List String := ["author", "pubkey", "timestamp", "parent"]

/-- Key list of the field map `VerifySignature` rebuilds. -/
def verifyFieldKeys : List String := ["author", "pubkey", "timestamp", "parent", "signature"]

/-- Valuation of the field map `VerifySignature` rebuilds from a post. -/
def Post.fieldVal (p : Post) : String → String := fun k =>
  if k = "author" then p.author
  else if k = "pubkey" then p.pubKey
  else if k = "timestamp" then p.timestampRaw
  else if k = "parent" then p.parent
  else if k = "signature" then p.signature
  else ""

/-- Model of `forum.SignPost`.  The system clock (`time.Now().UTC()`) is
the `now` parameter and Ed25519 signing with the identity's private key
(`crypto.Sign`) is the `sign` parameter, mapping a message to a base64
signature. -/
def SignPost (id : Identity) (sign : String → String) (now : GoTime)
    (parent body : String) : Post :=
  let tsRaw := formatRFC3339 now
  let fields := fun k =>
    if k = "author" then id.username
    else if k = "pubkey" then id.fingerprint
    else if k = "timestamp" then tsRaw
    else if k = "parent" then parent
    else ""
  let canonical := CanonicalForm signFieldKeys fields body
  { author := id.username
    pubKey := id.fingerprint
    timestamp := now
    timestampRaw := tsRaw
    parent := parent
    signature := sign canonical
    body := body
    filename := ""
    sigStatus := SigStatus.valid
    sigError := "" }

/-- Model of `Post.VerifySignature`.  The key store directory is the map
`keys` from username to the content of `keys/<username>.pub` (`none` when
the file does not exist), and `verifyOk pub msg sig` abstracts
`crypto.VerifyWithPublicKeyB64` (base64 decoding plus Ed25519
verification).  The verification outcome replaces only `sigStatus` and
`sigError`. -/
def Post.verifySignature (p : Post) (keys : String → Option String)
    (verifyOk : String → String → String → Bool) : Post :=
  match keys p.author with
  | none =>
    { p with sigStatus := SigStatus.missing
             sigError := "no public key for author " ++ p.author }
  | some data =>
    let pubkeyB64 := trimSpace data
    let canonical := CanonicalForm verifyFieldKeys p.fieldVal p.body
    if verifyOk pubkeyB64 canonical p.signature then
      { p with sigStatus := SigStatus.valid }
    else
      { p with sigStatus := SigStatus.invalid
               sigError := "signature verification failed" }

/-- Model of `api.sigStatusStr`. -/
def sigStatusStr (s : SigStatus) : String :=
  match s with
  | SigStatus.valid => "valid"
  | SigStatus.invalid => "invalid"
  | SigStatus.missing => "missing"

deriving instance DecidableEq for Except

/-- The fixed root filename (`forum.RootFilename`). -/
def rootFilename : String := "0000_root.md"

/-! ### Concrete artifacts for the round-trip claim (C1) -/

/-- A concrete identity used to exercise the sign/format/parse round trip. -/
def rtIdentity : Identity := ⟨"alice", "QUFBQUJCQkJDQ0ND"⟩

/-- A concrete post produced by `SignPost` whose body ends in a trailing
newline, the input on which the round trip loses a byte. -/
def rtPost : Post :=
  SignPost rtIdentity (fun _ => "U0lHTkFUVVJF") ⟨2026, 2, 17, 10, 0, 0⟩ "" "Hello\n"

/-- Extract the success value of an `Except`, if any. -/
def exceptOk {ε α : Type} : Except ε α → Option α
  | Except.ok a => some a
  | Except.error _ => none

/-- Concrete post, key store, and verification oracle exercising C3. -/
def vsPost : Post := { Post.empty with author := "alice", signature := "SIG" }

/-- Key store with one key file, `keys/alice.pub`, whose content carries
surrounding whitespace. -/
def vsKeys : String → Option String :=
  fun u => if u = "alice" then some " PUBKEY64 \n" else none

/-- Concrete verification oracle: accepts exactly the trimmed key and the
stored signature. -/
def vsVerifyOk : String → String → String → Bool :=
  fun pub _ sig => pub = "PUBKEY64" && sig = "SIG"

/-- Concrete well-formed post file for the C10 witness. -/
def freshContent : String :=
  "+++\nauthor=\"a\"\npubkey=\"b\"\ntimestamp=\"2026-01-01T00:00:00Z\"\nparent=\"\"\nsignature=\"s\"\n+++\n\nbody"

/-- The post parsed from `freshContent`. -/
def freshPost : Post := (exceptOk (ParsePost "x.md" freshContent)).getD Post.empty

/-! ### Thread assembly (forum.LoadThread)

A thread directory is the list of its entries in the name-sorted order
guaranteed by `os.ReadDir`.  Reading an individual file never fails in the
model (an `os.ReadFile` error aborts the whole load in Go and corresponds
to no well-formed directory value here). -/

/-- One directory entry: its name, whether it is a directory, and — for
regular files — its content. -/
structure DirEntry where
  name : String
  isDir : Bool
  content : String

deriving DecidableEq

/-- Modelled from the spec: `forum.TombstoneFilename` is called by
`LoadThread` and the admin-delete handler but its definition is not among
the provided source files; per the specification, the tombstone for a post
file `X` is the sibling file named `X` with `".tomb"` appended. -/
def TombstoneFilename (name : String) : String := name ++ ".tomb"

/-- The per-entry step of `LoadThread`'s collection loop: skip directories
and non-`.md` names, skip entries whose tombstone sibling exists
(`os.Stat` succeeds on any entry with that name), otherwise parse and
verify — a parse failure yields the visible `SigInvalid` placeholder
carrying the parse error instead of aborting. -/
def processEntry (entries : List DirEntry) (keys : String → Option String)
    (verifyOk : String → String → String → Bool) (e : DirEntry) : Option Post :=
  if e.isDir then none
  else if ¬ strHasSuffix e.name ".md" then none
  else if entries.any (fun s => s.name = TombstoneFilename e.name) then none
  else
    match ParsePost e.name e.content with
    | Except.error err =>
      some { Post.empty with filename := e.name, sigStatus := SigStatus.invalid,
                             sigError := err }
    | Except.ok post => some (post.verifySignature keys verifyOk)

/-- The posts `LoadThread` accumulates, in directory order, before
sorting. -/
def collectPosts (entries : List DirEntry) (keys : String → Option String)
    (verifyOk : String → String → String → Bool) : List Post :=
  entries.filterMap (processEntry entries keys verifyOk)

/-- The comparison function `LoadThread` passes to `sort.Slice`: the root
filename sorts first regardless of timestamp; all other posts compare by
`time.Time.Before`. -/
def threadLess (a b : Post) : Bool :=
  if a.filename = rootFilename then true
  else if b.filename = rootFilename then false
  else a.timestamp.before b.timestamp

/-- Model of `forum.Thread`. -/
structure Thread where
  category : String
  slug : String
  root : Option Post
  posts : List Post

deriving DecidableEq

/-- Model of `forum.LoadThread`, as a relation between the directory and
the returned thread.  `sort.Slice` is documented as not guaranteed stable,
so its output is specified only up to its contract: some permutation of
the collected posts with no inversion under the comparison function
(for all `i < j`, `less(posts[j], posts[i])` is false, i.e. pairwise
`threadLess b a = false`).  `Root` is set exactly when the first sorted
post carries the root filename. -/
def LoadThreadRel (category slug : String) (entries : List DirEntry)
    (keys : String → Option String) (verifyOk : String → String → String → Bool)
    (t : Thread) : Prop :=
  t.category = category ∧ t.slug = slug ∧
  t.posts.Perm (collectPosts entries keys verifyOk) ∧
  List.Pairwise (fun a b => threadLess b a = false) t.posts ∧
  t.root = (match t.posts with
            | [] => none
            | p :: _ => if p.filename = rootFilename then some p else none)

instance (category slug : String) (entries : List DirEntry)
    (keys : String → Option String) (verifyOk : String → String → String → Bool)
    (t : Thread) : Decidable (LoadThreadRel category slug entries keys verifyOk t) := by
  unfold LoadThreadRel
  infer_instance

/-- Builder for small concrete post files used by the thread fixtures. -/
def mkPostContent (ts body : String) : String :=
  "+++\nauthor=\"alice\"\npubkey=\"AAAABBBB\"\ntimestamp=\"" ++ ts ++
    "\"\nparent=\"\"\nsignature=\"SIG\"\n+++\n\n" ++ body

/-- Key store fixture: no key on file for anyone. -/
def thKeys : String → Option String := fun _ => none

/-- Verification oracle fixture (irrelevant when no key is on file). -/
def thVerifyOk : String → String → String → Bool := fun _ _ _ => true

/-- Thread directory fixture with distinct reply timestamps. -/
def c4wEntries : List DirEntry :=
  [⟨rootFilename, false, mkPostContent "2026-01-01T00:00:00Z" "root"⟩,
   ⟨"1000000000001_aaaaaaaa.md", false, mkPostContent "2026-01-02T00:00:00Z" "reply A"⟩,
   ⟨"1000000000002_bbbbbbbb.md", false, mkPostContent "2026-01-03T00:00:00Z" "reply B"⟩]

/-- The collected posts of `c4wEntries` (already in sorted order). -/
def c4wPosts : List Post := collectPosts c4wEntries thKeys thVerifyOk

/-- First, second, third collected post of the fixture. -/
def c4wP0 : Post := c4wPosts.getD 0 Post.empty

/-- Second collected post of the fixture. -/
def c4wP1 : Post := c4wPosts.getD 1 Post.empty

/-- Third collected post of the fixture. -/
def c4wP2 : Post := c4wPosts.getD 2 Post.empty

/-- A thread value satisfying `LoadThreadRel` on the fixture. -/
def c4wThread : Thread := ⟨"general", "t", some c4wP0, c4wPosts⟩

/-- Thread directory fixture whose two replies carry EQUAL timestamps. -/
def c4xEntries : List DirEntry :=
  [⟨rootFilename, false, mkPostContent "2026-01-01T00:00:00Z" "root"⟩,
   ⟨"1000000000001_aaaaaaaa.md", false, mkPostContent "2026-01-01T01:00:00Z" "reply A"⟩,
   ⟨"1000000000002_bbbbbbbb.md", false, mkPostContent "2026-01-01T01:00:00Z" "reply B"⟩]

/-- The collected posts of `c4xEntries`, in directory (filename) order. -/
def c4xPosts : List Post := collectPosts c4xEntries thKeys thVerifyOk

/-- A thread that swaps the two equal-timestamp replies relative to the
directory order. -/
def c4xThread : Thread :=
  ⟨"general", "t", some (c4xPosts.getD 0 Post.empty),
   [c4xPosts.getD 0 Post.empty, c4xPosts.getD 2 Post.empty, c4xPosts.getD 1 Post.empty]⟩

/-- Thread directory fixture for tombstone suppression: `x.md` has a
tombstone sibling, the reply `1000000000001_yyyyyyyy.md` does not. -/
def c5Entries : List DirEntry :=
  [⟨rootFilename, false, mkPostContent "2026-01-01T00:00:00Z" "root"⟩,
   ⟨"1000000000001_yyyyyyyy.md", false, mkPostContent "2026-01-02T00:00:00Z" "kept"⟩,
   ⟨"x.md", false, mkPostContent "2026-01-03T00:00:00Z" "deleted"⟩,
   ⟨"x.md.tomb", false, mkPostContent "2026-01-04T00:00:00Z" "tombstone"⟩]

/-- The collected posts of `c5Entries`. -/
def c5Posts : List Post := collectPosts c5Entries thKeys thVerifyOk

/-- A thread value satisfying `LoadThreadRel` on the tombstone fixture
(the collected posts are already sorted: root first, one reply). -/
def c5Thread : Thread := ⟨"general", "t", some (c5Posts.getD 0 Post.empty), c5Posts⟩

/-- Thread directory fixture for parse resilience: `0000_root.md` is well
formed, `1000000000001_zzzzzzzz.md` has no front matter fence. -/
def c6Entries : List DirEntry :=
  [⟨rootFilename, false, mkPostContent "2026-01-01T00:00:00Z" "root"⟩,
   ⟨"1000000000001_zzzzzzzz.md", false, "no front matter here"⟩]

/-- The collected posts of `c6Entries`. -/
def c6Posts : List Post := collectPosts c6Entries thKeys thVerifyOk

/-- A thread value satisfying `LoadThreadRel` on the resilience fixture
(the placeholder carries the zero timestamp and sorts before nothing of
interest; the collected order root-then-placeholder is sorted because the
root wins every comparison). -/
def c6Thread : Thread := ⟨"general", "t", some (c6Posts.getD 0 Post.empty), c6Posts⟩

/-- The parse error the malformed fixture file produces. -/
def c6Err : String :=
  "parse 1000000000001_zzzzzzzz.md: file does not begin with front matter fence '+++'"

/-! ### Thread scanning (api ThreadScan / ScanThread) -/

/-- Model of `strconv.ParseInt(s, 10, 64)`: optional sign, at least one
digit, value within the signed 64-bit range, error otherwise. -/
def parseIntDec (s : String) : Option Int :=
  let core : List Char → Bool → Option Int := fun ds neg =>
    if ds.isEmpty then none
    else
      match digitsVal ds with
      | none => none
      | some n =>
        if neg then (if (n : Int) ≤ (2 : Int) ^ 63 then some (-(n : Int)) else none)
        else (if (n : Int) ≤ (2 : Int) ^ 63 - 1 then some (n : Int) else none)
  match s.data with
  | '-' :: ds => core ds true
  | '+' :: ds => core ds false
  | ds => core ds false

/-- Split a character list at the first occurrence of `ch`
(`strings.IndexByte`). -/
def splitAtCh (ch : Char) : List Char → Option (List Char × List Char)
  | [] => none
  | c :: rest =>
    if c = ch then some ([], rest)
    else (splitAtCh ch rest).map (fun kv => (c :: kv.1, kv.2))

/-- Model of `api.parseFilenameTime`: the unix-milliseconds prefix of a
reply filename `{millis}_{hash8}.md`, `none` when there is no underscore
or the prefix is not a 64-bit integer. -/
def parseFilenameTime (name : String) : Option Int :=
  let base := trimSuffixStr name ".md"
  match splitAtCh '_' base.data with
  | none => none
  | some kv => parseIntDec (String.mk kv.1)

/-- Model of `api.ThreadScan` (on success `Root` is never nil, hence a
plain `Post` here). -/
structure ThreadScan where
  slug : String
  root : Post
  replyCount : Nat
  lastReplyAt : String

deriving DecidableEq

/-- The root-file lookup `os.ReadFile(dir/0000_root.md)` succeeds on: a
non-directory entry with the root name. -/
def scanRootPred (e : DirEntry) : Bool := e.name == rootFilename && !e.isDir

/-- The per-entry step of `ScanThread`'s reply loop: skip directories,
non-`.md` names and the root file; count everything else as a reply and,
when the filename carries a parseable millisecond prefix, overwrite the
running "last activity" value with that embedded timestamp. -/
def scanStep (acc : Nat × String) (e : DirEntry) : Nat × String :=
  if e.isDir || !strHasSuffix e.name ".md" || e.name == rootFilename then acc
  else
    match parseFilenameTime e.name with
    | some ms => (acc.1 + 1, formatUnixMilliRFC3339 ms)
    | none => (acc.1 + 1, acc.2)

/-- An entry `ScanThread` counts as a reply. -/
def replyPred (e : DirEntry) : Bool :=
  !(e.isDir || !strHasSuffix e.name ".md" || e.name == rootFilename)

/-- The embedded millisecond timestamp of a reply entry, when parseable. -/
def replyMillis (e : DirEntry) : Option Int :=
  if replyPred e then parseFilenameTime e.name else none

/-- Model of `api.ScanThread`: read and parse only the root file (error if
missing or unparseable), verify it, then fold the reply loop over the
directory listing. -/
def ScanThread (slug : String) (entries : List DirEntry)
    (keys : String → Option String) (verifyOk : String → String → String → Bool) :
    Except String ThreadScan :=
  match entries.find? scanRootPred with
  | none => Except.error "read root post: file does not exist"
  | some re =>
    match ParsePost rootFilename re.content with
    | Except.error e => Except.error ("parse root post: " ++ e)
    | Except.ok root0 =>
      let root := root0.verifySignature keys verifyOk
      let acc := entries.foldl scanStep (0, root.timestampRaw)
      Except.ok ⟨slug, root, acc.1, acc.2⟩

/-- Written from the claim's words: the newest reply's embedded timestamp
is the maximum millisecond prefix over all reply filenames that carry
one. -/
def newestReplyMillis (entries : List DirEntry) : Option Int :=
  (entries.filterMap replyMillis).max?

/-- Thread directory fixture for the scan claim, in the filename-sorted
order `os.ReadDir` returns: the reply `12000_aaaaaaaa.md` (embedded time
12000 ms) sorts BEFORE `9000_bbbbbbbb.md` (9000 ms) because names compare
as strings. -/
def scEntries : List DirEntry :=
  [⟨rootFilename, false, mkPostContent "2026-01-01T00:00:00Z" "root"⟩,
   ⟨"12000_aaaaaaaa.md", false, "reply file, content not read"⟩,
   ⟨"9000_bbbbbbbb.md", false, "reply file, content not read"⟩]

/-- The root post of the `scEntries` fixture, as parsed. -/
def scRoot : Post :=
  (exceptOk (ParsePost rootFilename (mkPostContent "2026-01-01T00:00:00Z" "root"))).getD
    Post.empty

/-! ### Categories (forum.LoadCategory) -/

/-- Model of `forum.categoryMeta`, the TOML payload of `META.toml`. -/
structure CategoryMeta where
  name : String
  description : String

deriving DecidableEq

/-- Fold decoded TOML assignments into the category metadata struct,
ignoring unknown keys. -/
def applyCategoryMeta : List (String × String) → CategoryMeta → CategoryMeta
  | [], m => m
  | (k, v) :: rest, m =>
    if k = "name" then applyCategoryMeta rest { m with name := v }
    else if k = "description" then applyCategoryMeta rest { m with description := v }
    else applyCategoryMeta rest m

/-- Model of `toml.DecodeFile` into `categoryMeta` given the file's
content. -/
def tomlDecodeMeta (content : String) : Except String CategoryMeta :=
  match tomlDecodeLines (splitLines content) with
  | Except.error e => Except.error e
  | Except.ok kvs => Except.ok (applyCategoryMeta kvs ⟨"", ""⟩)

/-- A category-directory entry: its name, whether it is a subdirectory,
and whether `os.Stat(dir/name/0000_root.md)` succeeds. -/
structure CatEntry where
  name : String
  isDir : Bool
  hasRoot : Bool

deriving DecidableEq

/-- Model of `forum.Category`. -/
structure Category where
  slug : String
  name : String
  description : String
  threadSlugs : List String

deriving DecidableEq

/-- The thread-slug list `LoadCategory` builds: name of every subdirectory
containing the fixed root filename, sorted ascending. -/
def threadSlugsOf (entries : List CatEntry) : List String :=
  sortStrings ((entries.filter (fun e => e.isDir && e.hasRoot)).map CatEntry.name)

/-- Model of `forum.LoadCategory`: `META.toml` is the map `metaFile`
(`none` when the file does not exist), the directory listing is
`entries`; a missing or undecodable metadata file is a hard error. -/
def LoadCategory (slug : String) (metaFile : Option String) (entries : List CatEntry) :
    Except String Category :=
  match metaFile with
  | none => Except.error ("read META.toml for category " ++ slug ++ ": file does not exist")
  | some content =>
    match tomlDecodeMeta content with
    | Except.error e => Except.error ("read META.toml for category " ++ slug ++ ": " ++ e)
    | Except.ok meta =>
      Except.ok ⟨slug, meta.name, meta.description, threadSlugsOf entries⟩

/-- Category directory fixture: two thread subdirectories with a root
file, one subdirectory without, one plain file. -/
def catEntries : List CatEntry :=
  [⟨"b-thread", true, true⟩, ⟨"a-thread", true, true⟩,
   ⟨"no-root", true, false⟩, ⟨"notes.txt", false, false⟩]

/-- A well-formed category metadata file. -/
def catMetaContent : String := "name = \"General\"\ndescription = \"talk\"\n"

/-! ### Join requests (Repo.SubmitJoinRequest and relatives)

Modelled from the spec: the join-request store operations
(`SubmitJoinRequest`, `ApproveJoinRequest`, `RejectJoinRequest`,
`JoinRequests`) are exercised by the repository's test suite and called by
the HTTP handlers and CLI, but their defining source file is not among the
provided sources, so the operations below follow the specification's
state machine (section 4.4): one pending-request file per username under
`requests/`, one approved-key file per username under `keys/`. -/

/-- Modelled from the spec: the join-request state visible to the store
operations — the approved key store (`keys/<u>.pub`, a partial map) and
the pending records (`requests/<u>.pub`, one per username, in directory
order). -/
structure JoinStore where
  keys : String → Option String
  requests : List (String × String)

/-- Modelled from the spec: `submit` writes a pending record for the
identity's username and public key; it is a no-op error if a record is
already pending or a key is already approved. -/
def SubmitJoinRequest (st : JoinStore) (id : Identity) : Except String JoinStore :=
  if st.requests.any (fun r => r.1 == id.username) then
    Except.error ("join request already pending for " ++ id.username)
  else if (st.keys id.username).isSome then
    Except.error ("user already approved: " ++ id.username)
  else
    Except.ok ⟨st.keys, st.requests ++ [(id.username, id.publicKey)]⟩

/-- Modelled from the spec: `approve` moves the pending public key into
the trusted key store under that username and removes the pending record;
after success the key is present and the request absent. -/
def ApproveJoinRequest (st : JoinStore) (username : String) : Except String JoinStore :=
  match st.requests.find? (fun r => r.1 == username) with
  | none => Except.error ("no pending join request for " ++ username)
  | some r =>
    Except.ok ⟨fun u => if u = username then some r.2 else st.keys u,
               st.requests.filter (fun q => !(q.1 == username))⟩

/-- Modelled from the spec: `reject` removes the pending record only; no
key is ever written. -/
def RejectJoinRequest (st : JoinStore) (username : String) : Except String JoinStore :=
  Except.ok ⟨st.keys, st.requests.filter (fun q => !(q.1 == username))⟩

/-- Modelled from the spec: `list_pending` returns every pending record
whose username does not already have an approved key, so approved users
never reappear as pending even from a stale leftover file. -/
def JoinRequests (st : JoinStore) : List (String × String) :=
  st.requests.filter (fun r => (st.keys r.1).isNone)

/-- Identity fixture for the join-request claim. -/
def jrId : Identity := ⟨"carol", "CAROLKEY"⟩

/-- Empty join-request store fixture. -/
def jrStore : JoinStore := ⟨fun _ => none, []⟩

/-- The store after carol's submit. -/
def jrSubmitted : JoinStore := ⟨fun _ => none, [("carol", "CAROLKEY")]⟩

/-- The store after approving carol. -/
def jrApproved : JoinStore :=
  ⟨fun u => if u = "carol" then some "CAROLKEY" else none, []⟩

/-- The store after rejecting carol instead. -/
def jrRejected : JoinStore := ⟨fun _ => none, []⟩

/-- A store where bob is approved but a stale pending file for him
remains. -/
def jrStale : JoinStore :=
  ⟨fun u => if u = "bob" then some "BOBKEY" else none, [("bob", "OLDKEY")]⟩

/-! ### Theorems -/

theorem charsLe_total : ∀ a b : List Char, charsLe a b = true ∨ charsLe b a = true
  | [], _ => Or.inl rfl
  | _ :: _, [] => Or.inr rfl
  | a :: as, b :: bs => by
    by_cases hab : a < b
    · exact Or.inl (by simp [charsLe, hab])
    · by_cases hba : b < a
      · exact Or.inr (by simp [charsLe, hba])
      · have h := charsLe_total as bs
        rcases h with h | h
        · exact Or.inl (by simp [charsLe, hab, hba, h])
        · exact Or.inr (by simp [charsLe, hab, hba, h])

theorem charsLe_antisymm :
    ∀ a b : List Char, charsLe a b = true → charsLe b a = true → a = b
  | [], [], _, _ => rfl
  | [], _ :: _, _, h => by simp [charsLe] at h
  | _ :: _, [], h, _ => by simp [charsLe] at h
  | a :: as, b :: bs, h1, h2 => by
    by_cases hab : a < b
    · simp [charsLe, hab, asymm hab] at h2
    · by_cases hba : b < a
      · simp [charsLe, hba, asymm hba] at h1
      · have hEq : a = b := le_antisymm (not_lt.mp hba) (not_lt.mp hab)
        subst hEq
        simp only [charsLe, lt_irrefl, if_false] at h1 h2
        have := charsLe_antisymm as bs h1 h2
        rw [this]

theorem charsLe_trans :
    ∀ a b c : List Char, charsLe a b = true → charsLe b c = true → charsLe a c = true
  | [], _, _, _, _ => rfl
  | _ :: _, [], _, h, _ => by simp [charsLe] at h
  | _ :: _, _ :: _, [], _, h => by simp [charsLe] at h
  | a :: as, b :: bs, c :: cs, h1, h2 => by
    by_cases hab : a < b
    · by_cases hbc : b < c
      · simp [charsLe, lt_trans hab hbc]
      · by_cases hcb : c < b
        · simp [charsLe, hbc, hcb] at h2
        · have : b = c := le_antisymm (not_lt.mp hcb) (not_lt.mp hbc)
          subst this
          simp [charsLe, hab]
    · by_cases hba : b < a
      · simp [charsLe, hab, hba] at h1
      · have hEq : a = b := le_antisymm (not_lt.mp hba) (not_lt.mp hab)
        subst hEq
        simp only [charsLe, lt_irrefl, if_false] at h1
        by_cases hac : a < c
        · simp [charsLe, hac]
        · by_cases hca : c < a
          · simp [charsLe, hac, hca] at h2
          · simp only [charsLe, hac, hca, if_false] at h2 ⊢
            exact charsLe_trans as bs cs h1 h2

theorem strLe_total (a b : String) : strLe a b = true ∨ strLe b a = true :=
  charsLe_total a.data b.data

theorem strLe_antisymm {a b : String} (h1 : strLe a b = true) (h2 : strLe b a = true) :
    a = b := by
  have := charsLe_antisymm a.data b.data h1 h2
  cases a; cases b; exact congrArg String.mk this

theorem strLe_trans {a b c : String} (h1 : strLe a b = true) (h2 : strLe b c = true) :
    strLe a c = true :=
  charsLe_trans a.data b.data c.data h1 h2

instance : IsTotal String strLeProp := ⟨strLe_total⟩

instance : IsTrans String strLeProp := ⟨fun _ _ _ => strLe_trans⟩

instance : IsAntisymm String strLeProp := ⟨fun _ _ => strLe_antisymm⟩

theorem insertStr_eq_orderedInsert (x : String) (l : List String) :
    insertStr x l = List.orderedInsert strLeProp x l := by
  induction l with
  | nil => rfl
  | cons y ys ih =>
    unfold insertStr List.orderedInsert
    by_cases h : strLe x y = true
    · rw [if_pos h, if_pos (show strLeProp x y from h)]
    · rw [if_neg h, if_neg (show ¬ strLeProp x y from h), ih]

theorem sortStrings_eq_insertionSort (l : List String) :
    sortStrings l = List.insertionSort strLeProp l := by
  induction l with
  | nil => rfl
  | cons x xs ih =>
    simp [sortStrings, List.insertionSort, insertStr_eq_orderedInsert] at ih ⊢
    rw [ih]

theorem sortStrings_perm (l : List String) : (sortStrings l).Perm l := by
  rw [sortStrings_eq_insertionSort]
  exact List.perm_insertionSort strLeProp l

theorem sortStrings_sorted (l : List String) : List.Sorted strLeProp (sortStrings l) := by
  rw [sortStrings_eq_insertionSort]
  exact List.sorted_insertionSort strLeProp l

/-- C2.  `CanonicalForm` returns exactly the reference serialization; its
output depends only on the key set and the valuation, not on the map
iteration order (any permutation of the key list gives byte-identical
output); and re-running it reproduces the same bytes. -/
theorem canonicalForm_correct (keys : List String) (val : String → String) (body : String) :
    CanonicalForm keys val body = canonicalFormSpec keys val body ∧
    (∀ keys2 : List String, List.Perm keys keys2 →
      CanonicalForm keys2 val body = CanonicalForm keys val body) ∧
    CanonicalForm keys val body = CanonicalForm keys val body := by
  refine ⟨?_, ?_, rfl⟩
  · unfold CanonicalForm canonicalFormSpec
    rw [sortStrings_eq_insertionSort]
  · intro keys2 hperm
    unfold CanonicalForm
    have hfil : List.Perm (keys2.filter (fun k => k ≠ "signature"))
        (keys.filter (fun k => k ≠ "signature")) :=
      (hperm.symm).filter (fun k => decide (k ≠ "signature"))
    have hsorted : sortStrings (keys2.filter (fun k => k ≠ "signature")) =
        sortStrings (keys.filter (fun k => k ≠ "signature")) := by
      apply List.eq_of_perm_of_sorted (r := strLeProp)
      · exact (sortStrings_perm _).trans
          (hfil.trans (sortStrings_perm _).symm)
      · exact sortStrings_sorted _
      · exact sortStrings_sorted _
    rw [hsorted]

/-- Witness for C2 at a concrete field map: the map
`{author ↦ a, signature ↦ s, parent ↦ p}` in two iteration orders. -/
theorem canonicalForm_correct_witness :
    CanonicalForm ["signature", "parent", "author"]
        (fun k => if k = "author" then "alice" else if k = "parent" then "ff00" else "SIG")
        "hello" =
      "author=alice\nparent=ff00\n\nhello" ∧
    CanonicalForm ["author", "parent", "signature"]
        (fun k => if k = "author" then "alice" else if k = "parent" then "ff00" else "SIG")
        "hello" =
      CanonicalForm ["signature", "parent", "author"]
        (fun k => if k = "author" then "alice" else if k = "parent" then "ff00" else "SIG")
        "hello" := by
  constructor
  · decide
  · exact (canonicalForm_correct ["signature", "parent", "author"]
      (fun k => if k = "author" then "alice" else if k = "parent" then "ff00" else "SIG")
      "hello").2.1 ["author", "parent", "signature"] (by decide)

/-- C1.  The format→parse round trip is NOT byte-for-byte on bodies that
end in a trailing newline: `Post.Format` writes the body verbatim with no
terminator, while `parseFrontMatter` unconditionally strips one trailing
newline from the reconstructed body (its own comment says the trim exists
"so that round-tripping Format→ParsePost preserves the body exactly", and
the specification asserts the same round trip, so the code contradicts its
stated intent here).  On the `SignPost` post with body `"Hello\n"`,
re-parsing the formatted bytes succeeds but yields body `"Hello"`;
every other claimed field does survive the round trip on this input. -/
theorem roundTrip_drops_trailing_newline :
    rtPost.body = "Hello\n" ∧
    Except.map Post.body (ParsePost rootFilename rtPost.format) = Except.ok "Hello" ∧
    Except.map Post.body (ParsePost rootFilename rtPost.format) ≠ Except.ok rtPost.body ∧
    Except.map Post.author (ParsePost rootFilename rtPost.format) = Except.ok rtPost.author ∧
    Except.map Post.pubKey (ParsePost rootFilename rtPost.format) = Except.ok rtPost.pubKey ∧
    Except.map Post.timestampRaw (ParsePost rootFilename rtPost.format) =
      Except.ok rtPost.timestampRaw ∧
    Except.map Post.parent (ParsePost rootFilename rtPost.format) = Except.ok rtPost.parent ∧
    Except.map Post.signature (ParsePost rootFilename rtPost.format) =
      Except.ok rtPost.signature := by
  decide

/-! ### Verification status claim (C3) -/

/-- C3.  `VerifySignature` sets `missing` exactly when the key store has no
file for the post's author, otherwise `valid` or `invalid` according to
whether the (trimmed) stored key verifies the signature against the
reconstructed canonical form; it is a total function (it never aborts the
caller), and it changes nothing but `sigStatus` and `sigError`: every
signed field and the filename are returned unchanged. -/
theorem verifySignature_spec (p : Post) (keys : String → Option String)
    (verifyOk : String → String → String → Bool) :
    ((p.verifySignature keys verifyOk).sigStatus = SigStatus.missing ↔
      keys p.author = none) ∧
    (∀ data : String, keys p.author = some data →
      (p.verifySignature keys verifyOk).sigStatus =
        (if verifyOk (trimSpace data) (CanonicalForm verifyFieldKeys p.fieldVal p.body)
            p.signature
         then SigStatus.valid else SigStatus.invalid)) ∧
    (p.verifySignature keys verifyOk).author = p.author ∧
    (p.verifySignature keys verifyOk).pubKey = p.pubKey ∧
    (p.verifySignature keys verifyOk).timestamp = p.timestamp ∧
    (p.verifySignature keys verifyOk).timestampRaw = p.timestampRaw ∧
    (p.verifySignature keys verifyOk).parent = p.parent ∧
    (p.verifySignature keys verifyOk).signature = p.signature ∧
    (p.verifySignature keys verifyOk).body = p.body ∧
    (p.verifySignature keys verifyOk).filename = p.filename := by
  cases h : keys p.author with
  | none =>
    refine ⟨by simp [Post.verifySignature, h], ?_, ?_⟩
    · intro data hdata
      exact absurd hdata (by simp)
    · simp [Post.verifySignature, h]
  | some data0 =>
    refine ⟨?_, ?_, ?_⟩
    · by_cases hv : verifyOk (trimSpace data0)
          (CanonicalForm verifyFieldKeys p.fieldVal p.body) p.signature = true
      · simp [Post.verifySignature, h, hv]
      · simp [Post.verifySignature, h, hv]
    · intro d hd
      injection hd with hd
      rw [← hd]
      by_cases hv : verifyOk (trimSpace data0)
          (CanonicalForm verifyFieldKeys p.fieldVal p.body) p.signature = true
      · simp [Post.verifySignature, h, hv]
      · simp [Post.verifySignature, h, hv]
    · by_cases hv : verifyOk (trimSpace data0)
          (CanonicalForm verifyFieldKeys p.fieldVal p.body) p.signature = true
      · simp [Post.verifySignature, h, hv]
      · simp [Post.verifySignature, h, hv]

/-- Witness for C3 at a concrete post and key store: the key exists, so the
status follows the oracle (here: valid), the missing case is ruled out, and
the signed fields are untouched. -/
theorem verifySignature_spec_witness :
    ((vsPost.verifySignature vsKeys vsVerifyOk).sigStatus = SigStatus.missing ↔
      vsKeys vsPost.author = none) ∧
    (vsPost.verifySignature vsKeys vsVerifyOk).sigStatus =
      (if vsVerifyOk (trimSpace " PUBKEY64 \n")
          (CanonicalForm verifyFieldKeys vsPost.fieldVal vsPost.body) vsPost.signature
       then SigStatus.valid else SigStatus.invalid) ∧
    (vsPost.verifySignature vsKeys vsVerifyOk).author = vsPost.author ∧
    (vsPost.verifySignature vsKeys vsVerifyOk).body = vsPost.body := by
  have h := verifySignature_spec vsPost vsKeys vsVerifyOk
  exact ⟨h.1, h.2.1 " PUBKEY64 \n" (by decide), h.2.2.1, h.2.2.2.2.2.2.2.2.1⟩

/-! ### Freshly parsed posts look verified (C10) -/

/-- C10.  Every post `ParsePost` accepts comes back with `sigStatus` equal
to `SigValid` — the zero value of the status type — although no
cryptographic check has happened; through `api.sigStatusStr` it is
rendered "valid", indistinguishable from a post whose signature actually
verified.  Only a later `VerifySignature` call can mark it invalid or
missing. -/
theorem parsePost_fresh_is_valid (filename content : String) (p : Post)
    (h : ParsePost filename content = Except.ok p) :
    p.sigStatus = SigStatus.valid ∧
    p.sigStatus = (default : SigStatus) ∧
    sigStatusStr p.sigStatus = "valid" := by
  unfold ParsePost at h
  split at h
  · exact absurd h (by simp)
  · split at h
    · exact absurd h (by simp)
    · injection h with h
      rw [← h]
      exact ⟨rfl, rfl, rfl⟩

/-- Witness for C10: the concrete freshly parsed, unverified post reports
the `valid` zero status. -/
theorem parsePost_fresh_is_valid_witness :
    freshPost.sigStatus = SigStatus.valid ∧
    freshPost.sigStatus = (default : SigStatus) ∧
    sigStatusStr freshPost.sigStatus = "valid" :=
  parsePost_fresh_is_valid "x.md" freshContent freshPost (by rfl)

theorem parsePost_ok_filename {filename content : String} {p : Post}
    (h : ParsePost filename content = Except.ok p) : p.filename = filename := by
  unfold ParsePost at h
  split at h
  · exact absurd h (by simp)
  · split at h
    · exact absurd h (by simp)
    · injection h with h
      rw [← h]

theorem verifySignature_filename (p : Post) (keys : String → Option String)
    (verifyOk : String → String → String → Bool) :
    (p.verifySignature keys verifyOk).filename = p.filename := by
  unfold Post.verifySignature
  cases keys p.author with
  | none => rfl
  | some data =>
    by_cases hv : verifyOk (trimSpace data)
        (CanonicalForm verifyFieldKeys p.fieldVal p.body) p.signature = true
    · simp [hv]
    · simp [hv]

theorem processEntry_some_filename {entries : List DirEntry}
    {keys : String → Option String} {verifyOk : String → String → String → Bool}
    {e : DirEntry} {p : Post}
    (h : processEntry entries keys verifyOk e = some p) : p.filename = e.name := by
  unfold processEntry at h
  split at h
  · exact absurd h (by simp)
  · split at h
    · exact absurd h (by simp)
    · split at h
      · exact absurd h (by simp)
      · split at h
        · injection h with h
          rw [← h]
        · injection h with h
          rw [← h]
          rw [verifySignature_filename]
          exact parsePost_ok_filename (by assumption)

theorem processEntry_some_conditions {entries : List DirEntry}
    {keys : String → Option String} {verifyOk : String → String → String → Bool}
    {e : DirEntry} {p : Post}
    (h : processEntry entries keys verifyOk e = some p) :
    e.isDir = false ∧ strHasSuffix e.name ".md" = true ∧
    entries.any (fun s => s.name = TombstoneFilename e.name) = false := by
  unfold processEntry at h
  split at h
  · exact absurd h (by simp)
  case isFalse hdir =>
    split at h
    · exact absurd h (by simp)
    case isFalse hmd =>
      split at h
      · exact absurd h (by simp)
      case isFalse htomb =>
        exact ⟨by simpa using hdir, by simpa using hmd, by simpa using htomb⟩

theorem processEntry_isSome {entries : List DirEntry}
    {keys : String → Option String} {verifyOk : String → String → String → Bool}
    {e : DirEntry}
    (hdir : e.isDir = false) (hmd : strHasSuffix e.name ".md" = true)
    (htomb : entries.any (fun s => s.name = TombstoneFilename e.name) = false) :
    (processEntry entries keys verifyOk e).isSome = true := by
  unfold processEntry
  rw [if_neg (by simp [hdir]), if_neg (by simp [hmd]), if_neg (by simp [htomb])]
  split
  · rfl
  · rfl

theorem collectPosts_length {entries : List DirEntry}
    {keys : String → Option String} {verifyOk : String → String → String → Bool}
    (h : ∀ e ∈ entries, (processEntry entries keys verifyOk e).isSome = true) :
    (collectPosts entries keys verifyOk).length = entries.length := by
  unfold collectPosts
  generalize hf : processEntry entries keys verifyOk = f
  rw [hf] at h
  clear hf
  induction entries with
  | nil => rfl
  | cons e rest ih =>
    have he : (f e).isSome = true := h e (List.mem_cons_self e rest)
    obtain ⟨p, hp⟩ := Option.isSome_iff_exists.mp he
    rw [List.filterMap_cons, hp]
    simp only [List.length_cons]
    rw [ih (fun x hx => h x (List.mem_cons_of_mem e hx))]

/-- C4 (amended).  Any thread `LoadThread` can return lists the post with
the root filename first regardless of its timestamp; after a post with a
non-root filename only non-root posts with greater-or-equal parsed
timestamps follow (ascending order; the relative order of posts with equal
timestamps is NOT guaranteed, because `sort.Slice` is documented as
unstable — see the counterexample); the `Root` field is set only if the
first sorted post is literally the root file; and when every directory
entry survives collection (root plus N replies, no tombstones, all
parsing), the result has exactly `entries.length = N + 1` posts. -/
theorem loadThread_ordering (category slug : String) (entries : List DirEntry)
    (keys : String → Option String) (verifyOk : String → String → String → Bool)
    (t : Thread) (h : LoadThreadRel category slug entries keys verifyOk t) :
    (∀ p ∈ t.posts, p.filename = rootFilename → t.posts.head? = some p) ∧
    List.Pairwise (fun a b => a.filename ≠ rootFilename →
      (b.filename ≠ rootFilename ∧ a.timestamp.key ≤ b.timestamp.key)) t.posts ∧
    (∀ p : Post, t.root = some p → t.posts.head? = some p ∧ p.filename = rootFilename) ∧
    ((∀ e ∈ entries, (processEntry entries keys verifyOk e).isSome = true) →
      t.posts.length = entries.length) := by
  obtain ⟨hc, hs, hperm, hpw, hroot⟩ := h
  refine ⟨?_, ?_, ?_, ?_⟩
  · intro p hp hpname
    cases hposts : t.posts with
    | nil => rw [hposts] at hp; exact absurd hp (by simp)
    | cons x rest =>
      rw [hposts] at hp hpw
      rcases List.mem_cons.mp hp with hpx | hprest
      · rw [hpx]; rfl
      · have hfalse := List.rel_of_pairwise_cons hpw hprest
        exact absurd hfalse (by simp [threadLess, hpname])
  · refine hpw.imp ?_
    intro a b hab ha
    by_cases hb : b.filename = rootFilename
    · exact absurd hab (by simp [threadLess, hb])
    · refine ⟨hb, ?_⟩
      unfold threadLess at hab
      rw [if_neg hb, if_neg ha] at hab
      unfold GoTime.before at hab
      simpa using hab
  · intro p hp
    rw [hroot] at hp
    cases hposts : t.posts with
    | nil => rw [hposts] at hp; exact absurd hp (by simp)
    | cons x rest =>
      rw [hposts] at hp
      have hp2 : (if x.filename = rootFilename then some x else none) = some p := hp
      by_cases hx : x.filename = rootFilename
      · rw [if_pos hx] at hp2
        injection hp2 with hp2
        rw [← hp2]
        exact ⟨rfl, hx⟩
      · rw [if_neg hx] at hp2
        exact absurd hp2 (by simp)
  · intro hall
    rw [hperm.length_eq]
    exact collectPosts_length hall

/-- Witness for C4 on the concrete root-plus-two-replies directory: the
root post heads the list, the replies follow in ascending timestamp order,
and the thread has N + 1 = 3 posts. -/
theorem loadThread_ordering_witness :
    c4wThread.posts.head? = some c4wP0 ∧
    c4wP1.filename ≠ rootFilename ∧
    c4wP1.timestamp.key ≤ c4wP2.timestamp.key ∧
    c4wThread.posts.length = c4wEntries.length := by
  have h := loadThread_ordering "general" "t" c4wEntries thKeys thVerifyOk c4wThread
    (by decide)
  have hpw := h.2.1
  have heq : c4wThread.posts = [c4wP0, c4wP1, c4wP2] := by decide
  rw [heq] at hpw
  have h12 := List.rel_of_pairwise_cons (List.pairwise_cons.mp hpw).2
    (show c4wP2 ∈ [c4wP2] by simp)
  exact ⟨h.1 c4wP0 (by decide) (by decide), by decide, (h12 (by decide)).2,
    h.2.2.2 (by decide)⟩

/-- Counterexample to C4's stability clause.  `sort.Slice` promises only a
sorted permutation (its documentation states the sort is not guaranteed to
be stable), so on a directory whose two replies have equal timestamps the
thread that lists them in REVERSED directory order is an admissible
`LoadThread` result: the claimed "stable order for posts whose timestamps
are equal" is not a property the code guarantees. -/
theorem loadThread_not_stable :
    LoadThreadRel "general" "t" c4xEntries thKeys thVerifyOk c4xThread ∧
    c4xEntries.map DirEntry.name =
      [rootFilename, "1000000000001_aaaaaaaa.md", "1000000000002_bbbbbbbb.md"] ∧
    (c4xPosts.getD 1 Post.empty).timestamp = (c4xPosts.getD 2 Post.empty).timestamp ∧
    (c4xPosts.getD 1 Post.empty).filename ≠ (c4xPosts.getD 2 Post.empty).filename ∧
    c4xThread.posts.map Post.filename =
      [rootFilename, "1000000000002_bbbbbbbb.md", "1000000000001_aaaaaaaa.md"] := by
  decide

/-- C5.  Tombstone suppression in `LoadThread`: a post file whose sibling
`name + ".tomb"` exists in the same directory never appears in the
returned thread, while a post file without a tombstone sibling always
does (as a parsed post or as a placeholder, under its own filename).
The hypothesis that entry names are distinct is the directory invariant
`os.ReadDir` guarantees. -/
theorem loadThread_tombstone (category slug : String) (entries : List DirEntry)
    (keys : String → Option String) (verifyOk : String → String → String → Bool)
    (t : Thread) (h : LoadThreadRel category slug entries keys verifyOk t)
    (hnodup : (entries.map DirEntry.name).Nodup) :
    ∀ e ∈ entries, e.isDir = false → strHasSuffix e.name ".md" = true →
      ((entries.any (fun s => s.name = TombstoneFilename e.name)) = true →
        t.posts.countP (fun p => p.filename = e.name) = 0) ∧
      ((entries.any (fun s => s.name = TombstoneFilename e.name)) = false →
        1 ≤ t.posts.countP (fun p => p.filename = e.name)) := by
  obtain ⟨hc, hs, hperm, hpw, hroot⟩ := h
  intro e he hdir hmd
  constructor
  · intro htomb
    rw [hperm.countP_eq]
    rw [List.countP_eq_zero]
    intro p hp
    simp only [decide_eq_true_eq]
    intro hpname
    obtain ⟨e2, he2, hpe2⟩ := List.mem_filterMap.mp hp
    have hname2 : p.filename = e2.name := processEntry_some_filename hpe2
    have he2e : e2 = e :=
      List.inj_on_of_nodup_map hnodup he2 he (by rw [← hname2, hpname])
    have hconds := processEntry_some_conditions hpe2
    rw [he2e] at hconds
    rw [hconds.2.2] at htomb
    exact absurd htomb (by simp)
  · intro htomb
    rw [hperm.countP_eq]
    have hsome : (processEntry entries keys verifyOk e).isSome = true :=
      processEntry_isSome hdir hmd htomb
    obtain ⟨p, hp⟩ := Option.isSome_iff_exists.mp hsome
    have hmem : p ∈ collectPosts entries keys verifyOk :=
      List.mem_filterMap.mpr ⟨e, he, hp⟩
    have : 0 < (collectPosts entries keys verifyOk).countP
        (fun p => p.filename = e.name) := by
      rw [List.countP_pos_iff]
      exact ⟨p, hmem, by simp [processEntry_some_filename hp]⟩
    exact this

/-- Witness for C5: in the concrete directory, the tombstoned `x.md`
contributes no post and the untombstoned sibling reply contributes one. -/
theorem loadThread_tombstone_witness :
    c5Thread.posts.countP (fun p => p.filename = "x.md") = 0 ∧
    1 ≤ c5Thread.posts.countP (fun p => p.filename = "1000000000001_yyyyyyyy.md") := by
  have h := loadThread_tombstone "general" "t" c5Entries thKeys thVerifyOk c5Thread
    (by decide) (by decide)
  have hx := h ⟨"x.md", false, mkPostContent "2026-01-03T00:00:00Z" "deleted"⟩
    (by decide) (by decide) (by decide)
  have hy := h ⟨"1000000000001_yyyyyyyy.md", false, mkPostContent "2026-01-02T00:00:00Z" "kept"⟩
    (by decide) (by decide) (by decide)
  exact ⟨hx.1 (by decide), hy.2 (by decide)⟩

/-- C6.  Per-file resilience of `LoadThread`: an unparseable `.md` file
does not abort the load — the returned thread contains, under that file's
name, the placeholder post flagged `SigInvalid` that carries the parse
error — and every other untombstoned `.md` file is still parsed,
signature-verified, and included. -/
theorem loadThread_placeholder (category slug : String) (entries : List DirEntry)
    (keys : String → Option String) (verifyOk : String → String → String → Bool)
    (t : Thread) (h : LoadThreadRel category slug entries keys verifyOk t) :
    ∀ e ∈ entries, e.isDir = false → strHasSuffix e.name ".md" = true →
      (entries.any (fun s => s.name = TombstoneFilename e.name)) = false →
      (∀ err : String, ParsePost e.name e.content = Except.error err →
        { Post.empty with filename := e.name, sigStatus := SigStatus.invalid,
                          sigError := err } ∈ t.posts) ∧
      (∀ q : Post, ParsePost e.name e.content = Except.ok q →
        q.verifySignature keys verifyOk ∈ t.posts) := by
  obtain ⟨hc, hs, hperm, hpw, hroot⟩ := h
  intro e he hdir hmd htomb
  constructor
  · intro err herr
    rw [hperm.mem_iff]
    refine List.mem_filterMap.mpr ⟨e, he, ?_⟩
    unfold processEntry
    rw [if_neg (by simp [hdir]), if_neg (by simp [hmd]), if_neg (by simp [htomb]), herr]
  · intro q hq
    rw [hperm.mem_iff]
    refine List.mem_filterMap.mpr ⟨e, he, ?_⟩
    unfold processEntry
    rw [if_neg (by simp [hdir]), if_neg (by simp [hmd]), if_neg (by simp [htomb]), hq]

/-- Witness for C6: the malformed file's placeholder — flagged invalid and
carrying the parse error — is in the thread, and the well-formed root file
is still parsed, verified, and included. -/
theorem loadThread_placeholder_witness :
    ({ Post.empty with filename := "1000000000001_zzzzzzzz.md",
                       sigStatus := SigStatus.invalid, sigError := c6Err } ∈ c6Thread.posts) ∧
    (((exceptOk (ParsePost rootFilename (mkPostContent "2026-01-01T00:00:00Z" "root"))).getD
        Post.empty).verifySignature thKeys thVerifyOk ∈ c6Thread.posts) := by
  have h := loadThread_placeholder "general" "t" c6Entries thKeys thVerifyOk c6Thread
    (by decide)
  have hbad := h ⟨"1000000000001_zzzzzzzz.md", false, "no front matter here"⟩
    (by decide) (by decide) (by decide) (by decide)
  have hgood := h ⟨rootFilename, false, mkPostContent "2026-01-01T00:00:00Z" "root"⟩
    (by decide) (by decide) (by decide) (by decide)
  exact ⟨hbad.1 c6Err (by decide), hgood.2
    ((exceptOk (ParsePost rootFilename (mkPostContent "2026-01-01T00:00:00Z" "root"))).getD
      Post.empty) (by decide)⟩

theorem scanFold (l : List DirEntry) (n : Nat) (s : String) :
    l.foldl scanStep (n, s) =
      (n + (l.filter replyPred).length,
       match (l.filterMap replyMillis).getLast? with
       | some ms => formatUnixMilliRFC3339 ms
       | none => s) := by
  induction l generalizing n s with
  | nil => simp
  | cons e rest ih =>
    by_cases hp : (e.isDir || !strHasSuffix e.name ".md" || e.name == rootFilename) = true
    · have hstep : scanStep (n, s) e = (n, s) := by simp [scanStep, hp]
      have hrp : ¬ replyPred e = true := by simp [replyPred, hp]
      have hrm : replyMillis e = none := by
        simp [replyMillis, Bool.eq_false_iff.mpr hrp]
      rw [List.foldl_cons, hstep, ih,
        List.filter_cons_of_neg hrp, List.filterMap_cons_none hrm]
    · have hrp : replyPred e = true := by simp [replyPred, hp]
      cases hms : parseFilenameTime e.name with
      | some ms =>
        have hrm : replyMillis e = some ms := by simp [replyMillis, hrp, hms]
        have hstep : scanStep (n, s) e = (n + 1, formatUnixMilliRFC3339 ms) := by
          simp [scanStep, hp, hms]
        rw [List.foldl_cons, hstep, ih,
          List.filter_cons_of_pos hrp, List.filterMap_cons_some hrm]
        refine Prod.ext ?_ ?_
        · simp [Nat.add_comm, Nat.add_assoc, Nat.add_left_comm]
        · cases hl : rest.filterMap replyMillis with
          | nil => simp
          | cons y ys =>
            cases hgl : (y :: ys).getLast? with
            | none => exact absurd hgl (by simp)
            | some m => simp [List.getLast?_cons_cons, hgl]
      | none =>
        have hrm : replyMillis e = none := by simp [replyMillis, hrp, hms]
        have hstep : scanStep (n, s) e = (n + 1, s) := by simp [scanStep, hp, hms]
        rw [List.foldl_cons, hstep, ih,
          List.filter_cons_of_pos hrp, List.filterMap_cons_none hrm]
        refine Prod.ext ?_ rfl
        simp [Nat.add_comm, Nat.add_assoc, Nat.add_left_comm]

/-- C9 (amended).  `ScanThread` errors whenever the root file is missing
or unparseable; on success it counts every non-root `.md` file as a reply,
and reports as last activity the embedded timestamp of the reply appearing
LAST in the (filename-sorted) directory listing among replies whose
filename prefix parses — not necessarily the newest embedded timestamp
(see the counterexample; the two agree when reply filenames follow the
fixed-width 13-digit millisecond pattern) — falling back to the root
post's timestamp string when no reply filename parses, in particular when
there are no replies. -/
theorem scanThread_spec (slug : String) (entries : List DirEntry)
    (keys : String → Option String) (verifyOk : String → String → String → Bool) :
    (entries.find? scanRootPred = none →
      exceptOk (ScanThread slug entries keys verifyOk) = none) ∧
    (∀ re : DirEntry, entries.find? scanRootPred = some re →
      (∀ err : String, ParsePost rootFilename re.content = Except.error err →
        exceptOk (ScanThread slug entries keys verifyOk) = none) ∧
      (∀ root0 : Post, ParsePost rootFilename re.content = Except.ok root0 →
        ScanThread slug entries keys verifyOk = Except.ok
          ⟨slug, root0.verifySignature keys verifyOk,
           (entries.filter replyPred).length,
           match (entries.filterMap replyMillis).getLast? with
           | some ms => formatUnixMilliRFC3339 ms
           | none => (root0.verifySignature keys verifyOk).timestampRaw⟩)) := by
  constructor
  · intro hfind
    unfold ScanThread
    rw [hfind]
    rfl
  · intro re hre
    constructor
    · intro err herr
      unfold ScanThread
      rw [hre]
      dsimp only
      rw [herr]
      rfl
    · intro root0 hok
      unfold ScanThread
      rw [hre]
      dsimp only
      rw [hok]
      dsimp only
      rw [scanFold]
      simp

/-- Counterexample to C9's "newest reply" clause: on `scEntries` the
newest embedded reply timestamp is 12000 ms, but `ScanThread` reports the
9000 ms one, because the loop keeps the LAST parseable filename in
directory order and string order disagrees with numeric order for
prefixes of different widths. -/
theorem scanThread_not_newest :
    Except.map ThreadScan.lastReplyAt (ScanThread "t" scEntries thKeys thVerifyOk) =
      Except.ok "1970-01-01T00:00:09Z" ∧
    newestReplyMillis scEntries = some 12000 ∧
    formatUnixMilliRFC3339 12000 = "1970-01-01T00:00:12Z" ∧
    Except.map ThreadScan.lastReplyAt (ScanThread "t" scEntries thKeys thVerifyOk) ≠
      Except.ok (formatUnixMilliRFC3339 12000) := by
  decide

/-- Witness for C9 on the concrete fixture: the scan succeeds with the
verified root, two replies, and the last-in-order parseable embedded
timestamp. -/
theorem scanThread_spec_witness :
    ScanThread "t" scEntries thKeys thVerifyOk = Except.ok
      ⟨"t", scRoot.verifySignature thKeys thVerifyOk,
       (scEntries.filter replyPred).length,
       match (scEntries.filterMap replyMillis).getLast? with
       | some ms => formatUnixMilliRFC3339 ms
       | none => (scRoot.verifySignature thKeys thVerifyOk).timestampRaw⟩ ∧
    (scEntries.filter replyPred).length = 2 := by
  have h := (scanThread_spec "t" scEntries thKeys thVerifyOk).2
    ⟨rootFilename, false, mkPostContent "2026-01-01T00:00:00Z" "root"⟩ (by decide)
  exact ⟨h.2 scRoot (by decide), by decide⟩

/-- Counterexample to C7's "every directory that has the metadata file
succeeds" clause: a directory whose `META.toml` exists but does not decode
(here `name = [unclosed`, the malformed-TOML shape the repository's own
test suite uses) makes `LoadCategory` fail even though the metadata file
is present. -/
theorem loadCategory_fails_on_present_meta :
    (some "name = [unclosed" ≠ (none : Option String)) ∧
    exceptOk (LoadCategory "general" (some "name = [unclosed") []) = none := by
  decide

/-- C7 (amended).  `LoadCategory` errors for every directory lacking the
category-metadata file (and for one whose metadata file fails to decode —
see the counterexample); for every directory whose metadata file decodes
it succeeds and returns exactly the names of the subdirectories containing
the fixed root filename, sorted ascending — in particular, zero thread
subdirectories yield an empty, non-error slug list. -/
theorem loadCategory_spec (slug : String) (metaFile : Option String)
    (entries : List CatEntry) :
    (metaFile = none → exceptOk (LoadCategory slug metaFile entries) = none) ∧
    (∀ (content : String) (meta : CategoryMeta), metaFile = some content →
      tomlDecodeMeta content = Except.ok meta →
      LoadCategory slug metaFile entries =
        Except.ok ⟨slug, meta.name, meta.description, threadSlugsOf entries⟩ ∧
      List.Sorted strLeProp (threadSlugsOf entries) ∧
      (∀ x : String, x ∈ threadSlugsOf entries ↔
        ∃ e ∈ entries, e.isDir = true ∧ e.hasRoot = true ∧ e.name = x) ∧
      ((∀ e ∈ entries, ¬(e.isDir = true ∧ e.hasRoot = true)) →
        threadSlugsOf entries = [])) := by
  constructor
  · intro hnone
    rw [hnone]
    rfl
  · intro content meta hsome hdec
    refine ⟨?_, sortStrings_sorted _, ?_, ?_⟩
    · rw [hsome]
      unfold LoadCategory
      dsimp only
      rw [hdec]
    · intro x
      unfold threadSlugsOf
      rw [(sortStrings_perm _).mem_iff]
      simp [List.mem_map, List.mem_filter, Bool.and_eq_true]
      constructor
      · rintro ⟨e, ⟨he, hdir, hroot⟩, hname⟩
        exact ⟨e, he, hdir, hroot, hname⟩
      · rintro ⟨e, he, hdir, hroot, hname⟩
        exact ⟨e, ⟨he, hdir, hroot⟩, hname⟩
    · intro hempty
      unfold threadSlugsOf
      have hfil : entries.filter (fun e => e.isDir && e.hasRoot) = [] := by
        rw [List.filter_eq_nil_iff]
        intro e he
        have := hempty e he
        simp only [Bool.and_eq_true]
        intro hc
        exact this ⟨hc.1, hc.2⟩
      rw [hfil]
      rfl

/-- Witness for C7: with well-formed metadata the category loads with the
sorted slugs of the root-bearing subdirectories; metadata-bearing empty
directories load with an empty slug list; a missing metadata file
errors. -/
theorem loadCategory_spec_witness :
    LoadCategory "general" (some catMetaContent) catEntries =
      Except.ok ⟨"general", "General", "talk", ["a-thread", "b-thread"]⟩ ∧
    threadSlugsOf [⟨"no-root", true, false⟩] = [] ∧
    exceptOk (LoadCategory "general" none catEntries) = none := by
  have h := loadCategory_spec "general" (some catMetaContent) catEntries
  have h2 := loadCategory_spec "general" (some catMetaContent) [⟨"no-root", true, false⟩]
  have hmain := h.2 catMetaContent ⟨"General", "talk"⟩ rfl (by decide)
  have hempty := h2.2 catMetaContent ⟨"General", "talk"⟩ rfl (by decide)
  refine ⟨hmain.1.trans (by decide), hempty.2.2.2 (by decide), ?_⟩
  exact (loadCategory_spec "general" none catEntries).1 rfl

/-- C8.  Join-request convergence: after submit-then-approve the pending
list excludes the user and the key store holds their key; after
submit-then-reject the pending list excludes the user and the key store
does not hold their key; and the pending list never names a username that
already has an approved key, even when a stale pending record for it
still exists. -/
theorem joinRequest_convergence (st : JoinStore) (id : Identity) :
    (∀ st1 st2 : JoinStore, SubmitJoinRequest st id = Except.ok st1 →
      ApproveJoinRequest st1 id.username = Except.ok st2 →
      st2.keys id.username = some id.publicKey ∧
      ∀ r ∈ JoinRequests st2, r.1 ≠ id.username) ∧
    (∀ st1 st2 : JoinStore, SubmitJoinRequest st id = Except.ok st1 →
      RejectJoinRequest st1 id.username = Except.ok st2 →
      st2.keys id.username = none ∧
      ∀ r ∈ JoinRequests st2, r.1 ≠ id.username) ∧
    (∀ u : String, (st.keys u).isSome = true → ∀ r ∈ JoinRequests st, r.1 ≠ u) := by
  have hsub : ∀ st1 : JoinStore, SubmitJoinRequest st id = Except.ok st1 →
      st1 = ⟨st.keys, st.requests ++ [(id.username, id.publicKey)]⟩ ∧
      st.requests.any (fun r => r.1 == id.username) = false ∧
      st.keys id.username = none := by
    intro st1 h
    unfold SubmitJoinRequest at h
    split at h
    · exact absurd h (by simp)
    case isFalse hpend =>
      split at h
      · exact absurd h (by simp)
      case isFalse happr =>
        injection h with h
        refine ⟨h.symm, Bool.eq_false_iff.mpr hpend, ?_⟩
        rcases hk : st.keys id.username with _ | k
        · rfl
        · rw [hk] at happr
          exact absurd rfl happr
  refine ⟨?_, ?_, ?_⟩
  · intro st1 st2 h1 h2
    obtain ⟨hst1, hpend, hkey⟩ := hsub st1 h1
    have hfind : st1.requests.find? (fun r => r.1 == id.username) =
        some (id.username, id.publicKey) := by
      rw [hst1]
      rw [List.find?_append]
      have hnone : st.requests.find? (fun r => r.1 == id.username) = none := by
        rw [List.find?_eq_none]
        intro x hx
        intro hxname
        have : st.requests.any (fun r => r.1 == id.username) = true :=
          List.any_eq_true.mpr ⟨x, hx, hxname⟩
        rw [this] at hpend
        exact absurd hpend (by simp)
      rw [hnone]
      simp
    unfold ApproveJoinRequest at h2
    rw [hfind] at h2
    injection h2 with h2
    rw [← h2]
    constructor
    · simp
    · intro r hr
      have hr2 : r ∈ st1.requests.filter (fun q => !(q.1 == id.username)) :=
        (List.mem_filter.mp hr).1
      have := (List.mem_filter.mp hr2).2
      simpa using this
  · intro st1 st2 h1 h2
    obtain ⟨hst1, hpend, hkey⟩ := hsub st1 h1
    unfold RejectJoinRequest at h2
    injection h2 with h2
    rw [← h2]
    constructor
    · rw [hst1]
      exact hkey
    · intro r hr
      have hr2 : r ∈ st1.requests.filter (fun q => !(q.1 == id.username)) :=
        (List.mem_filter.mp hr).1
      have := (List.mem_filter.mp hr2).2
      simpa using this
  · intro u hu r hr hru
    have := (List.mem_filter.mp hr).2
    rw [hru] at this
    simp only [Option.isNone_iff_eq_none] at this
    rw [this] at hu
    exact absurd hu (by simp)

/-- Witness for C8 on concrete stores: approve installs carol's key,
reject leaves none, and a stale pending record for the approved bob is
not listed. -/
theorem joinRequest_convergence_witness :
    jrApproved.keys "carol" = some "CAROLKEY" ∧
    jrRejected.keys "carol" = none ∧
    (("bob", "OLDKEY") ∈ JoinRequests jrStale → False) := by
  have h := joinRequest_convergence jrStore jrId
  have hstale := (joinRequest_convergence jrStale jrId).2.2 "bob" rfl
  exact ⟨(h.1 jrSubmitted jrApproved rfl rfl).1,
    (h.2.1 jrSubmitted jrRejected rfl rfl).1,
    fun hmem => hstale ("bob", "OLDKEY") hmem rfl⟩

